import Mathlib

/-!
# gopool: a list-backed object pool (`src/pool.go`)

A shallow embedding of `pool.go` and theorems about it.

Modelling choices.

* A Go `interface{}` value is a `Value`: the untyped `nil`, an opaque caller
  resource, or a pointer to a `container/list` element (what `Get` hands out).
* A `*list.List` is `Option (List Value)`: `none` is the nil pointer, `some xs`
  a list holding `xs` front to back.  The four `container/list` methods the pool
  uses follow the Go standard library, including what they do on a nil receiver.
* `sync.Mutex` is a `Bool` (`true` = held).  The embedding is sequential, so a
  `Lock` on a held mutex never returns.
* A call ends in one of four ways, `Res`: it returns, it panics (nil pointer
  dereference), it blocks forever on the mutex, or it recurses past any bound.
* The callbacks are caller code.  The factory is a function of the number of
  earlier factory calls; `World` counts factory calls and logs every argument
  the close callback was invoked on.
-/

namespace GoPool

/-! ## Values and the linked list -/

/-- A Go `interface{}` value as the pool sees it. -/
inductive Value where
  /-- the untyped nil interface value -/
  | nil : Value
  /-- an opaque caller resource, told apart by an identifier -/
  | obj (id : Nat) : Value
  /-- a `*list.Element` whose `Value` field holds `v` -/
  | elem (v : Value) : Value
  deriving DecidableEq, Repr

/-- A `*list.List`: `none` is the nil pointer, `some xs` holds `xs` front to back. -/
abbrev GoList := Option (List Value)

/-- A `*list.Element` as the pool code obtains one. -/
inductive ElemPtr where
  /-- the nil element pointer -/
  | null : ElemPtr
  /-- the element at the front of the list it was taken from -/
  | front (v : Value) : ElemPtr
  /-- a newly allocated `&list.Element{Value: v}`, on no list -/
  | fresh (v : Value) : ElemPtr
  deriving DecidableEq, Repr

/-- `list.New()`: an empty, initialised list. -/
def list_New : GoList := some []

/-- `(*List).Len`: reads `l.len`; `none` is the nil pointer dereference. -/
def list_Len : GoList → Option Nat
  | none => none
  | some xs => some xs.length

/-- `(*List).Front`: nil for an empty list, else the first element;
`none` is the nil pointer dereference on a nil receiver. -/
def list_Front : GoList → Option ElemPtr
  | none => none
  | some [] => some ElemPtr.null
  | some (x :: _) => some (ElemPtr.front x)

/-- `(*List).PushBack`: appends at the back; `none` is the nil pointer
dereference of `lazyInit` on a nil receiver. -/
def list_PushBack : GoList → Value → Option GoList
  | none, _ => none
  | some xs, v => some (some (xs ++ [v]))

/-- `(*List).Remove`: `if e.list == l then l.remove(e)`.  A nil `e` faults on
`e.list`; the front element of `l` is unlinked; an element of no list is left
alone, except that on a nil receiver `e.list == l` holds and `l.remove(e)`
dereferences the nil `e.prev`. -/
def list_Remove : GoList → ElemPtr → Option GoList
  | _, ElemPtr.null => none
  | some (_ :: rest), ElemPtr.front _ => some (some rest)
  | l, ElemPtr.front _ => some l
  | none, ElemPtr.fresh _ => none
  | some xs, ElemPtr.fresh _ => some (some xs)

/-! ## Outcomes, callbacks, configuration and pool -/

/-- How a call ends: `σ` is the state it leaves, `α` what it returns. -/
inductive Res (σ α : Type) where
  /-- the call returns `a` -/
  | ret (a : α) (s : σ) : Res σ α
  /-- the call panics with a nil pointer dereference, leaving `s` -/
  | fault (s : σ) : Res σ α
  /-- the call blocks forever on the held mutex -/
  | deadlock : Res σ α
  /-- the call is still recursing when the fuel is spent -/
  | outOfFuel : Res σ α

/-- Sequencing of calls: the second runs only when the first returns. -/
def Res.andThen {σ α β : Type} (r : Res σ α) (k : α → σ → Res σ β) : Res σ β :=
  match r with
  | Res.ret a s => k a s
  | Res.fault s => Res.fault s
  | Res.deadlock => Res.deadlock
  | Res.outOfFuel => Res.outOfFuel

/-- A Go `error`: `none` is nil, `some msg` an error with that message. -/
abbrev GoError := Option String

/-- The `Factory` callback: the result of its `n`-th call (counting from 0). -/
abbrev FactoryFn := Nat → Value × GoError

/-- The `Close` callback. -/
abbrev CloseFn := Value → GoError

/-- What the callbacks have been asked to do so far. -/
structure World where
  /-- number of factory invocations -/
  factoryCalls : Nat
  /-- arguments of the close-callback invocations, oldest first -/
  closeCalls : List Value
  deriving DecidableEq, Repr

/-- `type Config struct`. -/
structure Config where
  InitCount : Int
  MaxCount : Int
  Factory : Option FactoryFn
  Close : Option CloseFn
  Timeout : Int

/-- `type listPool struct`. -/
structure listPool where
  /-- `sync.Mutex`: `true` when held -/
  mu : Bool
  conns : GoList
  factory : Option FactoryFn
  close : Option CloseFn
  timeout : Int

/-- State of a method call: the pool and the callbacks' world. -/
abbrev PoolState := listPool × World

/-! ## The methods of `listPool` -/

/-- `func (l *listPool) Release()`. -/
def listPool.Release (l : listPool) (w : World) : Res PoolState Unit :=
  if l.mu then Res.deadlock
  else
    let l1 := { l with mu := true }
    let l2 := { l1 with conns := none }
    let l3 := { l2 with factory := none }
    let l4 := { l3 with close := none }
    Res.ret () ({ l4 with mu := false }, w)

/-- `func (l *listPool) getall() *list.List`. -/
def listPool.getall (l : listPool) (w : World) : Res PoolState GoList :=
  if l.mu then Res.deadlock
  else Res.ret l.conns (l, w)

/-- `func (l *listPool) Get() (interface{}, error)`. -/
def listPool.Get (l : listPool) (w : World) : Res PoolState (Value × GoError) :=
  let ll := l.conns
  match list_Len ll with
  | none => Res.fault (l, w)
  | some n =>
    if n ≤ 0 then Res.ret (Value.nil, some "empty list") (l, w)
    else if l.mu then Res.deadlock
    else
      let l1 := { l with mu := true }
      match list_Front ll with
      | none => Res.fault (l1, w)
      | some conn =>
        match list_Remove ll conn with
        | none => Res.fault (l1, w)
        | some ll2 =>
          match conn with
          | ElemPtr.null => Res.fault (l1, w)
          | ElemPtr.front v => Res.ret (Value.elem v, none) ({ l1 with conns := ll2, mu := false }, w)
          | ElemPtr.fresh v => Res.ret (Value.elem v, none) ({ l1 with conns := ll2, mu := false }, w)

/-- `func (l *listPool) Put(conn interface{}) error`. -/
def listPool.Put (l : listPool) (w : World) (conn : Value) : Res PoolState GoError :=
  if conn = Value.nil then Res.ret (some "conn error") (l, w)
  else if l.mu then Res.deadlock
  else
    let l1 := { l with mu := true }
    match list_PushBack l1.conns conn with
    | none => Res.fault (l1, w)
    | some ll2 => Res.ret none ({ l1 with conns := ll2, mu := false }, w)

/-- `func (l *listPool) Close(conn interface{}) error`.  The body calls
`l.Close(conn)`, the method itself; `fuel` bounds the depth of that recursion. -/
def listPool.Close : Nat → listPool → World → Value → Res PoolState GoError
  | fuel, l, w, conn =>
    if conn = Value.nil then Res.ret (some "conn error") (l, w)
    else
      match fuel with
      | 0 => Res.outOfFuel
      | fuel + 1 =>
        (listPool.Close fuel l w conn).andThen fun err s =>
          if err ≠ none then Res.ret (some "close error") s
          else if s.1.mu then Res.deadlock
          else
            let l1 := { s.1 with mu := true }
            match list_Remove l1.conns (ElemPtr.fresh conn) with
            | none => Res.fault (l1, s.2)
            | some ll2 => Res.ret none ({ l1 with conns := ll2, mu := false }, s.2)

/-- `func (l *listPool) Len() int`. -/
def listPool.Len (l : listPool) (w : World) : Res PoolState Nat :=
  match list_Len l.conns with
  | none => Res.fault (l, w)
  | some n => Res.ret n (l, w)

/-! ## The constructor -/

/-- The loop `for i := 0; i < config.InitCount; i++` of `newListPool`, with
`n` iterations left to run. -/
def newListPool_loop : Nat → listPool → World → Res World (Option listPool × GoError)
  | 0, l, w => Res.ret (some l, none) w
  | n + 1, l, w =>
    match l.factory with
    | none => Res.fault w
    | some f =>
      let r := f w.factoryCalls
      let w1 := { w with factoryCalls := w.factoryCalls + 1 }
      if r.2 ≠ none then
        match listPool.Release l w1 with
        | Res.ret _ s => Res.ret (none, some "init error") s.2
        | Res.fault s => Res.fault s.2
        | Res.deadlock => Res.deadlock
        | Res.outOfFuel => Res.outOfFuel
      else
        match list_PushBack l.conns r.1 with
        | none => Res.fault w1
        | some ll2 => newListPool_loop n { l with conns := ll2 } w1

/-- `func newListPool(config *Config) (GoPool, error)`, for a non-nil `config`. -/
def newListPool (config : Config) (w : World) : Res World (Option listPool × GoError) :=
  if config.InitCount < 0 ∨ config.MaxCount ≥ 0 ∨ config.InitCount > config.MaxCount then
    Res.ret (none, some "invalid config param") w
  else if config.Factory.isNone ∨ config.Close.isNone then
    Res.ret (none, some "method invalid") w
  else
    let l : listPool :=
      { mu := false, conns := list_New, factory := config.Factory,
        close := config.Close, timeout := config.Timeout }
    newListPool_loop config.InitCount.toNat l w

/-! ## Fixtures: callbacks that always succeed, a fresh world, a pool at rest -/

/-- A factory that always succeeds; its `n`-th call makes resource `n`. -/
def okFactory : FactoryFn := fun n => (Value.obj n, none)

/-- A close callback that always succeeds. -/
def okClose : CloseFn := fun _ => none

/-- No callback has been invoked yet. -/
def world0 : World := { factoryCalls := 0, closeCalls := [] }

/-- An active pool at rest (mutex free) whose idle sequence is `xs`. -/
def poolOf (xs : List Value) : listPool :=
  { mu := false, conns := some xs, factory := some okFactory, close := some okClose, timeout := 0 }

/-- The pool `poolOf xs` after `Release()`. -/
def releasedPool : listPool :=
  { mu := false, conns := none, factory := none, close := none, timeout := 0 }

/-- The pool `Release` leaves: mutex free, no list, no callbacks. -/
def cleared (l : listPool) : listPool :=
  { mu := false, conns := none, factory := none, close := none, timeout := l.timeout }

/-! ## Sequences of calls

The pool keeps neither `MaxCount` nor a count of resources handed out, so both
are kept beside it: `maxCount` is a parameter of the statements and
`outstanding` a ghost counter, moved as the spec says (up on a `Get` that
returns a resource, down on a `Put` that stores one or a `Close` that returns
after its nil check). -/

/-- One call on the pool. -/
inductive Call where
  | get : Call
  | put (r : Value) : Call
  | close (r : Value) : Call
  | release : Call
  deriving DecidableEq, Repr

/-- Pool, world and the ghost count of outstanding resources. -/
structure Sys where
  pool : listPool
  world : World
  outstanding : Nat

/-- Number of idle resources: the length of the list, 0 once `Release` has dropped it. -/
def idleCount (l : listPool) : Nat :=
  match l.conns with
  | none => 0
  | some xs => xs.length

/-- One call from `s`.  A call that returns or panics leaves a state the caller
can go on from (a panic can be recovered); `none` when the call never returns. -/
def stepCall (fuel : Nat) (s : Sys) : Call → Option Sys
  | Call.get =>
    match listPool.Get s.pool s.world with
    | Res.ret (_, none) t => some { pool := t.1, world := t.2, outstanding := s.outstanding + 1 }
    | Res.ret (_, some _) t => some { pool := t.1, world := t.2, outstanding := s.outstanding }
    | Res.fault t => some { pool := t.1, world := t.2, outstanding := s.outstanding }
    | Res.deadlock => none
    | Res.outOfFuel => none
  | Call.put r =>
    match listPool.Put s.pool s.world r with
    | Res.ret none t => some { pool := t.1, world := t.2, outstanding := s.outstanding - 1 }
    | Res.ret (some _) t => some { pool := t.1, world := t.2, outstanding := s.outstanding }
    | Res.fault t => some { pool := t.1, world := t.2, outstanding := s.outstanding }
    | Res.deadlock => none
    | Res.outOfFuel => none
  | Call.close r =>
    match listPool.Close fuel s.pool s.world r with
    | Res.ret _ t =>
      some { pool := t.1, world := t.2,
             outstanding := if r = Value.nil then s.outstanding else s.outstanding - 1 }
    | Res.fault t => some { pool := t.1, world := t.2, outstanding := s.outstanding }
    | Res.deadlock => none
    | Res.outOfFuel => none
  | Call.release =>
    match listPool.Release s.pool s.world with
    | Res.ret _ t => some { pool := t.1, world := t.2, outstanding := s.outstanding }
    | Res.fault t => some { pool := t.1, world := t.2, outstanding := s.outstanding }
    | Res.deadlock => none
    | Res.outOfFuel => none

/-- The state reached from `s` by the calls in order; the run ends at a call
that never returns. -/
def runCalls (fuel : Nat) : Sys → List Call → Sys
  | s, [] => s
  | s, c :: cs =>
    match stepCall fuel s c with
    | none => s
    | some s2 => runCalls fuel s2 cs

/-- The caller may make call `c` in state `s`: a non-nil resource is put back
only while some resource is outstanding. -/
def callAllowed (s : Sys) : Call → Bool
  | Call.put r => r = Value.nil || 0 < s.outstanding
  | _ => true

/-- Every call of the run is allowed in the state in which it is made. -/
def disciplined (fuel : Nat) : Sys → List Call → Bool
  | _, [] => true
  | s, c :: cs =>
    callAllowed s c &&
      match stepCall fuel s c with
      | none => true
      | some s2 => disciplined fuel s2 cs

/-! ## Sequences with `Len`, repeated `Put` and `Get`, a failing factory -/

/-- One call on the pool, `Len` included. -/
inductive AnyCall where
  | call (c : Call) : AnyCall
  | len : AnyCall
  deriving DecidableEq, Repr

/-- One call from `s`, `Len` included; as `stepCall`, `none` when the call
never returns. -/
def stepAny (fuel : Nat) (s : Sys) : AnyCall → Option Sys
  | AnyCall.call c => stepCall fuel s c
  | AnyCall.len =>
    match listPool.Len s.pool s.world with
    | Res.ret _ t => some { pool := t.1, world := t.2, outstanding := s.outstanding }
    | Res.fault t => some { pool := t.1, world := t.2, outstanding := s.outstanding }
    | Res.deadlock => none
    | Res.outOfFuel => none

/-- The state reached from `s` by the calls in order, `Len` included; the run
ends at a call that never returns. -/
def runAny (fuel : Nat) : Sys → List AnyCall → Sys
  | s, [] => s
  | s, c :: cs =>
    match stepAny fuel s c with
    | none => s
    | some s2 => runAny fuel s2 cs

/-- The pool is as `Release` leaves it: no list, no factory, no close callback. -/
def isReleased (l : listPool) : Bool :=
  l.conns.isNone && l.factory.isNone && l.close.isNone

/-- `Put(r1); ...; Put(rn)` in order, collecting the errors returned. -/
def putAll : List Value → listPool → World → Res PoolState (List GoError)
  | [], l, w => Res.ret [] (l, w)
  | r :: rs, l, w =>
    (listPool.Put l w r).andThen fun e s =>
      (putAll rs s.1 s.2).andThen fun es t => Res.ret (e :: es) t

/-- `k` calls of `Get()` in order, collecting what each returned. -/
def getMany : Nat → listPool → World → Res PoolState (List (Value × GoError))
  | 0, l, w => Res.ret [] (l, w)
  | k + 1, l, w =>
    (listPool.Get l w).andThen fun a s =>
      (getMany k s.1 s.2).andThen fun as t => Res.ret (a :: as) t

/-- A factory that succeeds `k` times, making resources `0 .. k-1`, and fails
from then on. -/
def failAfter (k : Nat) : FactoryFn :=
  fun n => if n < k then (Value.obj n, none) else (Value.nil, some "factory error")

/-- The pool `newListPool` starts its loop with, for the given callbacks. -/
def freshPool (f : FactoryFn) (c : CloseFn) : listPool :=
  { mu := false, conns := list_New, factory := some f, close := some c, timeout := 0 }

/-! ## Get, cut at its Lock

`Get` reads the list and tests its length before `l.mu.Lock()`, and takes the
front element after it.  Between the two another call can run.  The two halves
below are the text of `listPool.Get` on either side of the `Lock`; what runs
under the mutex is one step, what runs before it is another. -/

/-- `Get` up to `l.mu.Lock()`: `ll := l.conns` and the test `ll.Len() <= 0`.
`some r` when the call ends here (the panic on a nil list, or the "empty list"
return), `none` when it goes on to the `Lock`.  The pool is only read. -/
def listPool.Get_check (l : listPool) (w : World) : Option (Res PoolState (Value × GoError)) :=
  let ll := l.conns
  match list_Len ll with
  | none => some (Res.fault (l, w))
  | some n =>
    if n ≤ 0 then some (Res.ret (Value.nil, some "empty list") (l, w))
    else none

/-- `Get` from `l.mu.Lock()` on.  `ll` is the list the local pointer `ll` points
to when this half runs: the pool's own list, `l.conns`, as long as no `Release`
has run since the pointer was read. -/
def listPool.Get_locked (ll : GoList) (l : listPool) (w : World) :
    Res PoolState (Value × GoError) :=
  if l.mu then Res.deadlock
  else
    let l1 := { l with mu := true }
    match list_Front ll with
    | none => Res.fault (l1, w)
    | some conn =>
      match list_Remove ll conn with
      | none => Res.fault (l1, w)
      | some ll2 =>
        match conn with
        | ElemPtr.null => Res.fault (l1, w)
        | ElemPtr.front v => Res.ret (Value.elem v, none) ({ l1 with conns := ll2, mu := false }, w)
        | ElemPtr.fresh v => Res.ret (Value.elem v, none) ({ l1 with conns := ll2, mu := false }, w)

/-- The two halves run back to back, nothing in between. -/
def listPool.Get_uncut (l : listPool) (w : World) : Res PoolState (Value × GoError) :=
  match listPool.Get_check l w with
  | some r => r
  | none => listPool.Get_locked l.conns l w

/-! ## Construction -/

/-- C1 (evaluation at the failing input): with `InitCount = 3`, `MaxCount = 5`
and callbacks that always succeed, `newListPool` returns no pool and the error
"invalid config param", and the factory has not been invoked. -/
theorem newListPool_rejects_3_5 :
    newListPool { InitCount := 3, MaxCount := 5, Factory := some okFactory,
                  Close := some okClose, Timeout := 0 } world0
      = Res.ret (none, some "invalid config param") world0
    ∧ world0.factoryCalls = 0 := by
  constructor
  · simp [newListPool]
  · rfl

/-! ## Get -/

/-- C2 (evaluation at the failing input): on the pool whose idle sequence is
`[obj 1, obj 2]`, `Get` returns without error and without a factory call, the
idle sequence becomes `[obj 2]`, but the value returned is the list element
wrapping `obj 1`, which is not `obj 1`. -/
theorem Get_returns_element_not_resource :
    listPool.Get (poolOf [Value.obj 1, Value.obj 2]) world0
      = Res.ret (Value.elem (Value.obj 1), none) (poolOf [Value.obj 2], world0)
    ∧ Value.elem (Value.obj 1) ≠ Value.obj 1 := by
  constructor
  · rfl
  · decide

/-- C3 (counterexample): on an active pool with an empty idle sequence and a
factory that always succeeds, `Get` returns the error "empty list" with no
resource; it does not return without error, and the factory is not invoked. -/
theorem Get_empty_no_factory_call :
    (poolOf []).factory = some okFactory
    ∧ listPool.Get (poolOf []) world0
        = Res.ret (Value.nil, some "empty list") (poolOf [], world0)
    ∧ (¬ ∃ r s, listPool.Get (poolOf []) world0 = Res.ret (r, none) s)
    ∧ (¬ ∃ a s, listPool.Get (poolOf []) world0 = Res.ret a s
          ∧ s.2.factoryCalls = world0.factoryCalls + 1) := by
  have h : listPool.Get (poolOf []) world0
      = Res.ret (Value.nil, some "empty list") (poolOf [], world0) := rfl
  refine ⟨rfl, h, ?_, ?_⟩
  · rintro ⟨r, s, hs⟩
    rw [h] at hs
    injection hs with h1 _
    injection h1 with _ h2
    exact absurd h2 (by simp)
  · rintro ⟨a, s, hs, hc⟩
    rw [h] at hs
    injection hs with _ h2
    subst h2
    simp [world0] at hc

/-- C3 (amended): for every pool whose idle sequence is empty, `Get` returns
the nil value with the error "empty list", leaves pool and world unchanged, and
so invokes the factory zero times. -/
theorem Get_empty_returns_error (l : listPool) (w : World) (h : l.conns = some []) :
    listPool.Get l w = Res.ret (Value.nil, some "empty list") (l, w) := by
  simp [listPool.Get, h, list_Len]

/-- Witness for `Get_empty_returns_error` at the empty pool. -/
theorem Get_empty_returns_error_witness :
    (poolOf []).conns = some []
    ∧ listPool.Get (poolOf []) world0
        = Res.ret (Value.nil, some "empty list") (poolOf [], world0) :=
  ⟨rfl, Get_empty_returns_error (poolOf []) world0 rfl⟩

/-! ## Put -/

/-- C4: on an active pool at rest with idle sequence `xs`, `Put r` for a non-nil
`r` returns no error and leaves the idle sequence `xs ++ [r]`: `Len()` goes from
`xs.length` to `xs.length + 1`, every earlier entry keeps its position and `r`
is the last one.  The world (callback invocations) is unchanged. -/
theorem Put_appends_at_back (l : listPool) (w : World) (xs : List Value) (r : Value)
    (hconns : l.conns = some xs) (hmu : l.mu = false) (hr : r ≠ Value.nil) :
    listPool.Put l w r = Res.ret none ({ l with conns := some (xs ++ [r]) }, w)
    ∧ listPool.Len l w = Res.ret xs.length (l, w)
    ∧ listPool.Len { l with conns := some (xs ++ [r]) } w
        = Res.ret (xs.length + 1) ({ l with conns := some (xs ++ [r]) }, w)
    ∧ (∀ i, i < xs.length → (xs ++ [r])[i]? = xs[i]?)
    ∧ (xs ++ [r])[xs.length]? = some r := by
  obtain ⟨mu, conns, factory, close, timeout⟩ := l
  simp only at hconns hmu
  subst hconns hmu
  refine ⟨?_, ?_, ?_, ?_, ?_⟩
  · simp [listPool.Put, hr, list_PushBack]
  · simp [listPool.Len, list_Len]
  · simp [listPool.Len, list_Len]
  · intro i hi
    exact List.getElem?_append_left hi
  · simp

/-- Witness for `Put_appends_at_back`: `Put (obj 7)` on the pool `[obj 1]`. -/
theorem Put_appends_at_back_witness :
    (poolOf [Value.obj 1]).conns = some [Value.obj 1]
    ∧ (poolOf [Value.obj 1]).mu = false
    ∧ Value.obj 7 ≠ Value.nil
    ∧ listPool.Put (poolOf [Value.obj 1]) world0 (Value.obj 7)
        = Res.ret none (poolOf [Value.obj 1, Value.obj 7], world0) :=
  ⟨rfl, rfl, by decide,
    (Put_appends_at_back (poolOf [Value.obj 1]) world0 [Value.obj 1] (Value.obj 7)
      rfl rfl (by decide)).1⟩

/-- C5: for every pool state whatsoever (active or released, mutex free or
held), `Put nil` returns the error "conn error" and leaves pool and world
exactly as they were; `Len()` called after it behaves as `Len()` called
instead of it. -/
theorem Put_nil_is_error_and_noop (l : listPool) (w : World) :
    listPool.Put l w Value.nil = Res.ret (some "conn error") (l, w)
    ∧ (listPool.Put l w Value.nil).andThen (fun _ s => listPool.Len s.1 s.2)
        = listPool.Len l w := by
  have h : listPool.Put l w Value.nil = Res.ret (some "conn error") (l, w) := by
    simp [listPool.Put]
  exact ⟨h, by rw [h]; rfl⟩

/-! ## Close -/

/-- On a non-nil argument `Close` calls itself before anything else, so no
amount of fuel lets it return. -/
theorem Close_nonnil_outOfFuel (fuel : Nat) (l : listPool) (w : World) (conn : Value)
    (h : conn ≠ Value.nil) : listPool.Close fuel l w conn = Res.outOfFuel := by
  induction fuel with
  | zero => simp [listPool.Close, h]
  | succ n ih => simp [listPool.Close, h, ih, Res.andThen]

/-- On the nil argument `Close` returns its error at once, whatever the fuel. -/
theorem Close_nil_ret (fuel : Nat) (l : listPool) (w : World) :
    listPool.Close fuel l w Value.nil = Res.ret (some "conn error") (l, w) := by
  cases fuel <;> simp [listPool.Close]

/-- C6 (evaluation at the failing input): on the active pool `[obj 1]`,
`Close (obj 9)` for the outstanding resource `obj 9` does not return for any
recursion bound: the method calls itself, never the close callback. -/
theorem Close_recurses_forever (fuel : Nat) :
    listPool.Close fuel (poolOf [Value.obj 1]) world0 (Value.obj 9) = Res.outOfFuel :=
  Close_nonnil_outOfFuel fuel (poolOf [Value.obj 1]) world0 (Value.obj 9) (by decide)

/-! ## Release -/

/-- C7 (counterexample): `Release` on the active pool with the two idle
resources `obj 1`, `obj 2` returns with the close callback never invoked, not
invoked twice. -/
theorem Release_destroys_nothing_example :
    listPool.Release (poolOf [Value.obj 1, Value.obj 2]) world0
      = Res.ret () (releasedPool, world0)
    ∧ world0.closeCalls = []
    ∧ (¬ ∃ s, listPool.Release (poolOf [Value.obj 1, Value.obj 2]) world0 = Res.ret () s
          ∧ s.2.closeCalls.length = 2) := by
  have h : listPool.Release (poolOf [Value.obj 1, Value.obj 2]) world0
      = Res.ret () (releasedPool, world0) := rfl
  refine ⟨h, rfl, ?_⟩
  rintro ⟨s, hs, hc⟩
  rw [h] at hs
  injection hs with _ h2
  subst h2
  simp [world0] at hc

/-- C7 (amended): for every pool at rest, `Release` returns, leaves the world
as it was (the close callback is invoked zero times, whatever the number of
idle resources) and leaves the pool with no list and no callbacks. -/
theorem Release_clears_without_destroying (l : listPool) (w : World) (hmu : l.mu = false) :
    listPool.Release l w = Res.ret () (cleared l, w) := by
  simp [listPool.Release, hmu, cleared]

/-- Witness for `Release_clears_without_destroying` on the pool `[obj 1, obj 2]`. -/
theorem Release_clears_without_destroying_witness :
    (poolOf [Value.obj 1, Value.obj 2]).mu = false
    ∧ listPool.Release (poolOf [Value.obj 1, Value.obj 2]) world0
        = Res.ret () (cleared (poolOf [Value.obj 1, Value.obj 2]), world0) :=
  ⟨rfl, Release_clears_without_destroying (poolOf [Value.obj 1, Value.obj 2]) world0 rfl⟩

/-- C8 (evaluation at the failing input): `Release` on the pool `[obj 1]`
leaves `releasedPool`; on it `Get` panics on the nil list, and `Put (obj 2)`
panics on the nil list while holding the mutex.  Neither returns an error
value; neither hands out or stores a resource. -/
theorem Get_Put_after_Release_fault :
    listPool.Release (poolOf [Value.obj 1]) world0 = Res.ret () (releasedPool, world0)
    ∧ listPool.Get releasedPool world0 = Res.fault (releasedPool, world0)
    ∧ listPool.Put releasedPool world0 (Value.obj 2)
        = Res.fault ({ releasedPool with mu := true }, world0) :=
  ⟨rfl, rfl, rfl⟩

/-- C9: `Release` twice is `Release` once, from every pool state and world: the
two runs end the same way, in the same pool state, with the same callback
invocations.  From a pool at rest the first call returns the cleared pool and
the second returns it again, unchanged. -/
theorem Release_idempotent (l : listPool) (w : World) :
    (listPool.Release l w).andThen (fun _ s => listPool.Release s.1 s.2)
      = listPool.Release l w
    ∧ listPool.Release { l with mu := false } w = Res.ret () (cleared l, w)
    ∧ listPool.Release (cleared l) w = Res.ret () (cleared l, w) := by
  refine ⟨?_, ?_, ?_⟩
  · cases hmu : l.mu <;> simp [listPool.Release, hmu, Res.andThen]
  · simp [listPool.Release, cleared]
  · simp [listPool.Release, cleared]

/-! ## The capacity invariant -/

/-- An allowed call that returns or panics does not raise the sum of the idle
count and the outstanding count. -/
theorem stepCall_sum_le (fuel : Nat) (s s2 : Sys) (c : Call)
    (ha : callAllowed s c = true) (hs : stepCall fuel s c = some s2) :
    idleCount s2.pool + s2.outstanding ≤ idleCount s.pool + s.outstanding := by
  obtain ⟨⟨mu, conns, factory, close, timeout⟩, w, out⟩ := s
  cases c with
  | get =>
    rcases conns with _ | xs
    · simp [stepCall, listPool.Get, list_Len] at hs
      subst hs
      simp [idleCount]
    · rcases xs with _ | ⟨x, rest⟩
      · simp [stepCall, listPool.Get, list_Len] at hs
        subst hs
        simp [idleCount]
      · cases mu
        · simp [stepCall, listPool.Get, list_Len, list_Front, list_Remove] at hs
          subst hs
          simp [idleCount]
          omega
        · simp [stepCall, listPool.Get, list_Len] at hs
  | put r =>
    by_cases hr : r = Value.nil
    · subst hr
      simp [stepCall, listPool.Put] at hs
      subst hs
      simp
    · cases mu
      · rcases conns with _ | xs
        · simp [stepCall, listPool.Put, hr, list_PushBack] at hs
          subst hs
          simp [idleCount]
        · simp [stepCall, listPool.Put, hr, list_PushBack] at hs
          subst hs
          simp [callAllowed, hr] at ha
          simp [idleCount]
          omega
      · simp [stepCall, listPool.Put, hr] at hs
  | close r =>
    by_cases hr : r = Value.nil
    · subst hr
      simp [stepCall, Close_nil_ret] at hs
      subst hs
      simp
    · simp [stepCall, Close_nonnil_outOfFuel fuel _ _ r hr] at hs
  | release =>
    cases mu
    · simp [stepCall, listPool.Release] at hs
      subst hs
      simp [idleCount]
    · simp [stepCall, listPool.Release] at hs

/-- Along a disciplined run the sum of the idle count and the outstanding count
never rises. -/
theorem runCalls_sum_le (fuel : Nat) (calls : List Call) (s : Sys)
    (hd : disciplined fuel s calls = true) :
    idleCount (runCalls fuel s calls).pool + (runCalls fuel s calls).outstanding
      ≤ idleCount s.pool + s.outstanding := by
  induction calls generalizing s with
  | nil => simp [runCalls]
  | cons c cs ih =>
    simp only [disciplined, Bool.and_eq_true] at hd
    obtain ⟨ha, hrest⟩ := hd
    cases hstep : stepCall fuel s c with
    | none => simp [runCalls, hstep]
    | some s2 =>
      rw [hstep] at hrest
      have h1 := stepCall_sum_le fuel s s2 c ha hstep
      have h2 := ih s2 hrest
      simp only [runCalls, hstep]
      omega

/-- C10 (counterexample): with `maxCount = 1`, from the empty active pool with
nothing outstanding, `Put (obj 1)` then `Put (obj 2)` leaves two idle
resources: the idle count alone exceeds `maxCount`. -/
theorem capacity_exceeded_by_two_puts :
    idleCount (poolOf []) ≤ 1
    ∧ idleCount
        (runCalls 0 { pool := poolOf [], world := world0, outstanding := 0 }
          [Call.put (Value.obj 1), Call.put (Value.obj 2)]).pool = 2
    ∧ ¬ (idleCount
          (runCalls 0 { pool := poolOf [], world := world0, outstanding := 0 }
            [Call.put (Value.obj 1), Call.put (Value.obj 2)]).pool
        + (runCalls 0 { pool := poolOf [], world := world0, outstanding := 0 }
            [Call.put (Value.obj 1), Call.put (Value.obj 2)]).outstanding ≤ 1) := by
  refine ⟨by decide, by decide, by decide⟩

/-- C10 (amended): from a pool holding at most `maxCount` idle resources with
nothing outstanding, every state reached by a sequence of `Get`, `Put`, `Close`
and `Release` calls in which a non-nil resource is put back only while one is
outstanding satisfies `idle + outstanding ≤ maxCount`; in particular the idle
count stays within `maxCount`. -/
theorem capacity_invariant_disciplined (fuel : Nat) (maxCount : Int) (s : Sys)
    (calls : List Call)
    (hidle : (idleCount s.pool : Int) ≤ maxCount) (hout : s.outstanding = 0)
    (hd : disciplined fuel s calls = true) :
    ((idleCount (runCalls fuel s calls).pool + (runCalls fuel s calls).outstanding : Nat) : Int)
      ≤ maxCount
    ∧ (idleCount (runCalls fuel s calls).pool : Int) ≤ maxCount := by
  have h := runCalls_sum_le fuel calls s hd
  constructor <;> omega

/-- Witness for `capacity_invariant_disciplined`: two resources idle,
`maxCount = 2`, and the calls `Get, Get, Put, Get, Release`. -/
theorem capacity_invariant_disciplined_witness :
    (idleCount (poolOf [Value.obj 1, Value.obj 2]) : Int) ≤ 2
    ∧ disciplined 5
        { pool := poolOf [Value.obj 1, Value.obj 2], world := world0, outstanding := 0 }
        [Call.get, Call.get, Call.put (Value.obj 1), Call.get, Call.release] = true
    ∧ ((idleCount (runCalls 5
          { pool := poolOf [Value.obj 1, Value.obj 2], world := world0, outstanding := 0 }
          [Call.get, Call.get, Call.put (Value.obj 1), Call.get, Call.release]).pool
        + (runCalls 5
          { pool := poolOf [Value.obj 1, Value.obj 2], world := world0, outstanding := 0 }
          [Call.get, Call.get, Call.put (Value.obj 1), Call.get, Call.release]).outstanding
          : Nat) : Int) ≤ 2 :=
  ⟨by decide, by decide,
    (capacity_invariant_disciplined 5 2
      { pool := poolOf [Value.obj 1, Value.obj 2], world := world0, outstanding := 0 }
      [Call.get, Call.get, Call.put (Value.obj 1), Call.get, Call.release]
      (by decide) rfl (by decide)).1⟩

/-! ## Construction: the guards -/

/-- The first guard of `newListPool` holds for all integers: a negative
`MaxCount` is below a non-negative `InitCount`. -/
theorem first_guard_always (a b : Int) : a < 0 ∨ b ≥ 0 ∨ a > b := by
  omega

/-- C11: for every configuration with `InitCount < 0` or `MaxCount < InitCount`,
`newListPool` returns no pool and the error "invalid config param", and leaves
the world as it was: the factory is not invoked. -/
theorem newListPool_rejects_bad_bounds (config : Config) (w : World)
    (h : config.InitCount < 0 ∨ config.MaxCount < config.InitCount) :
    newListPool config w = Res.ret (none, some "invalid config param") w := by
  have hg : config.InitCount < 0 ∨ config.MaxCount ≥ 0
      ∨ config.InitCount > config.MaxCount := by
    rcases h with h | h
    · exact Or.inl h
    · exact Or.inr (Or.inr h)
  unfold newListPool
  rw [if_pos hg]

/-- Witness for `newListPool_rejects_bad_bounds`: `InitCount = 4`, `MaxCount = -2`. -/
theorem newListPool_rejects_bad_bounds_witness :
    ((4 : Int) < 0 ∨ (-2 : Int) < 4)
    ∧ newListPool { InitCount := 4, MaxCount := -2, Factory := some okFactory,
                    Close := some okClose, Timeout := 0 } world0
        = Res.ret (none, some "invalid config param") world0 :=
  ⟨by decide,
    newListPool_rejects_bad_bounds
      { InitCount := 4, MaxCount := -2, Factory := some okFactory,
        Close := some okClose, Timeout := 0 } world0 (by decide)⟩

/-- C12: for every configuration whose `Factory` or `Close` callback is nil,
`newListPool` returns no pool and an invalid-configuration error ("invalid
config param" from the first guard, or "method invalid" from the second), and
leaves the world as it was: no callback is invoked. -/
theorem newListPool_rejects_nil_callbacks (config : Config) (w : World)
    (h : config.Factory = none ∨ config.Close = none) :
    newListPool config w = Res.ret (none, some "invalid config param") w
    ∨ newListPool config w = Res.ret (none, some "method invalid") w := by
  unfold newListPool
  by_cases hg : config.InitCount < 0 ∨ config.MaxCount ≥ 0
      ∨ config.InitCount > config.MaxCount
  · left
    rw [if_pos hg]
  · right
    have hm : config.Factory.isNone = true ∨ config.Close.isNone = true := by
      rcases h with h | h
      · left
        simp [h]
      · right
        simp [h]
    rw [if_neg hg, if_pos hm]

/-- Witness for `newListPool_rejects_nil_callbacks`: a configuration with no
factory. -/
theorem newListPool_rejects_nil_callbacks_witness :
    ((none : Option FactoryFn) = none ∨ some okClose = none)
    ∧ (newListPool { InitCount := 0, MaxCount := 0, Factory := none,
                     Close := some okClose, Timeout := 0 } world0
          = Res.ret (none, some "invalid config param") world0
        ∨ newListPool { InitCount := 0, MaxCount := 0, Factory := none,
                        Close := some okClose, Timeout := 0 } world0
          = Res.ret (none, some "method invalid") world0) :=
  ⟨Or.inl rfl,
    newListPool_rejects_nil_callbacks
      { InitCount := 0, MaxCount := 0, Factory := none,
        Close := some okClose, Timeout := 0 } world0 (Or.inl rfl)⟩

/-- C19: `newListPool` never constructs a pool.  For every configuration and
world it returns no pool and the error "invalid config param", with the world
unchanged (no factory call), because its first guard holds for all integers. -/
theorem newListPool_never_constructs (config : Config) (w : World) :
    newListPool config w = Res.ret (none, some "invalid config param") w
    ∧ (config.InitCount < 0 ∨ config.MaxCount ≥ 0
        ∨ config.InitCount > config.MaxCount) := by
  have hg := first_guard_always config.InitCount config.MaxCount
  refine ⟨?_, hg⟩
  unfold newListPool
  rw [if_pos hg]

/-! ## Close and Len: the nil argument, the released pool -/

/-- C13: for every pool state and world, `Close nil` returns the error "conn
error" at once, whatever the recursion bound, leaving pool and world as they
were: the close callback is not invoked. -/
theorem Close_nil_is_error_and_noop (fuel : Nat) (l : listPool) (w : World) :
    listPool.Close fuel l w Value.nil = Res.ret (some "conn error") (l, w)
    ∧ (listPool.Close fuel l w Value.nil).andThen (fun _ s => Res.ret s.2.closeCalls s)
        = Res.ret w.closeCalls (l, w) := by
  have h := Close_nil_ret fuel l w
  exact ⟨h, by rw [h]; rfl⟩

/-- C16 (evaluation at the failing input): on the active pool `[obj 1]`,
`Len` returns 1 and changes nothing; after `Release`, `Len` panics on the nil
list instead of returning 0. -/
theorem Len_after_Release_faults :
    listPool.Len (poolOf [Value.obj 1]) world0 = Res.ret 1 (poolOf [Value.obj 1], world0)
    ∧ listPool.Release (poolOf [Value.obj 1]) world0 = Res.ret () (releasedPool, world0)
    ∧ listPool.Len releasedPool world0 = Res.fault (releasedPool, world0) :=
  ⟨rfl, rfl, rfl⟩

/-! ## What Get hands out, and the order it hands it out in -/

/-- A list element is never the value it wraps. -/
theorem elem_ne_self (v : Value) : Value.elem v ≠ v := by
  intro h
  have hs := congrArg sizeOf h
  simp at hs

/-- `Put` of a non-nil value on an active pool at rest appends it. -/
theorem Put_ret (l : listPool) (w : World) (xs : List Value) (r : Value)
    (hconns : l.conns = some xs) (hmu : l.mu = false) (hr : r ≠ Value.nil) :
    listPool.Put l w r = Res.ret none ({ l with conns := some (xs ++ [r]) }, w) := by
  obtain ⟨mu, conns, factory, close, timeout⟩ := l
  simp only at hconns hmu
  subst hconns hmu
  simp [listPool.Put, hr, list_PushBack]

/-- `Get` on an active pool at rest with a non-empty idle sequence removes the
front entry and returns the list element that held it. -/
theorem Get_cons (l : listPool) (w : World) (x : Value) (rest : List Value)
    (hconns : l.conns = some (x :: rest)) (hmu : l.mu = false) :
    listPool.Get l w = Res.ret (Value.elem x, none) ({ l with conns := some rest }, w) := by
  obtain ⟨mu, conns, factory, close, timeout⟩ := l
  simp only at hconns hmu
  subst hconns hmu
  simp [listPool.Get, list_Len, list_Front, list_Remove]

/-- Repeated `Put` of non-nil values appends them all, in order, without error. -/
theorem putAll_ret (rs : List Value) (l : listPool) (w : World) (xs : List Value)
    (hconns : l.conns = some xs) (hmu : l.mu = false) (hnn : ∀ r ∈ rs, r ≠ Value.nil) :
    putAll rs l w
      = Res.ret (rs.map fun _ => none) ({ l with conns := some (xs ++ rs) }, w) := by
  induction rs generalizing l xs with
  | nil =>
    obtain ⟨mu, conns, factory, close, timeout⟩ := l
    simp only at hconns
    subst hconns
    simp [putAll]
  | cons r rs ih =>
    have hr : r ≠ Value.nil := hnn r (List.mem_cons_self r rs)
    have hrest : ∀ r2 ∈ rs, r2 ≠ Value.nil := fun r2 h2 => hnn r2 (List.mem_cons_of_mem r h2)
    have hstep := ih { l with conns := some (xs ++ [r]) } (xs ++ [r]) rfl hmu hrest
    simp only [putAll, Put_ret l w xs r hconns hmu hr, Res.andThen, hstep]
    simp

/-- Repeated `Get` hands out the elements of the first `k` idle entries, in
order, and leaves the rest. -/
theorem getMany_ret (k : Nat) (l : listPool) (w : World) (xs : List Value)
    (hconns : l.conns = some xs) (hmu : l.mu = false) (hk : k ≤ xs.length) :
    getMany k l w
      = Res.ret ((xs.take k).map fun r => (Value.elem r, none))
          ({ l with conns := some (xs.drop k) }, w) := by
  induction k generalizing l xs with
  | zero =>
    obtain ⟨mu, conns, factory, close, timeout⟩ := l
    simp only at hconns
    subst hconns
    simp [getMany]
  | succ k ih =>
    rcases xs with _ | ⟨x, rest⟩
    · simp at hk
    · have hk2 : k ≤ rest.length := by simpa using hk
      have hstep := ih { l with conns := some rest } rest rfl hmu hk2
      simp only [getMany, Get_cons l w x rest hconns hmu, Res.andThen, hstep]
      simp

/-- C18: from an active pool at rest with an empty idle sequence, `Put` of the
non-nil resources `rs` in order followed by `k ≤ rs.length` calls of `Get`: every
`Put` and every `Get` returns without error, the `i`-th `Get` returns the list
element holding the `i`-th resource put, the idle sequence left is `rs` without
its first `k` entries, in order, and `Len()` is then `rs.length - k`. -/
theorem Put_then_Get_is_FIFO (l : listPool) (w : World) (rs : List Value) (k : Nat)
    (hconns : l.conns = some []) (hmu : l.mu = false)
    (hnn : ∀ r ∈ rs, r ≠ Value.nil) (hk : k ≤ rs.length) :
    putAll rs l w = Res.ret (rs.map fun _ => none) ({ l with conns := some rs }, w)
    ∧ (putAll rs l w).andThen (fun _ s => getMany k s.1 s.2)
        = Res.ret ((rs.take k).map fun r => (Value.elem r, none))
            ({ l with conns := some (rs.drop k) }, w)
    ∧ listPool.Len { l with conns := some (rs.drop k) } w
        = Res.ret (rs.length - k) ({ l with conns := some (rs.drop k) }, w) := by
  have hput : putAll rs l w
      = Res.ret (rs.map fun _ => none) ({ l with conns := some rs }, w) := by
    have h := putAll_ret rs l w [] hconns hmu hnn
    simpa using h
  have hget := getMany_ret k { l with conns := some rs } w rs rfl hmu hk
  refine ⟨hput, ?_, ?_⟩
  · rw [hput]
    simp only [Res.andThen]
    rw [hget]
  · simp [listPool.Len, list_Len]

/-- Witness for `Put_then_Get_is_FIFO`: three resources put, two taken. -/
theorem Put_then_Get_is_FIFO_witness :
    (poolOf []).conns = some [] ∧ (poolOf []).mu = false
    ∧ (∀ r ∈ [Value.obj 1, Value.obj 2, Value.obj 3], r ≠ Value.nil)
    ∧ 2 ≤ [Value.obj 1, Value.obj 2, Value.obj 3].length
    ∧ (putAll [Value.obj 1, Value.obj 2, Value.obj 3] (poolOf []) world0).andThen
          (fun _ s => getMany 2 s.1 s.2)
        = Res.ret [(Value.elem (Value.obj 1), none), (Value.elem (Value.obj 2), none)]
            (poolOf [Value.obj 3], world0) :=
  ⟨rfl, rfl, by decide, by decide,
    (Put_then_Get_is_FIFO (poolOf []) world0 [Value.obj 1, Value.obj 2, Value.obj 3] 2
      rfl rfl (by decide) (by decide)).2.1⟩

/-- C20: on an active pool at rest whose idle sequence is `r :: rest`, `Get`
succeeds and returns the list element holding `r`, which is not `r`.  So on an
empty pool `Put x` (for a non-nil `x`) followed by `Get` returns the element
holding `x`, not `x`; and putting back what `Get` returned stores that element,
not `r`, at the back of the idle sequence. -/
theorem Get_hands_out_element (l : listPool) (w : World) (r x : Value) (rest : List Value)
    (hconns : l.conns = some (r :: rest)) (hmu : l.mu = false) (hx : x ≠ Value.nil) :
    listPool.Get l w = Res.ret (Value.elem r, none) ({ l with conns := some rest }, w)
    ∧ Value.elem r ≠ r
    ∧ (listPool.Put { l with conns := some [] } w x).andThen
          (fun _ s => listPool.Get s.1 s.2)
        = Res.ret (Value.elem x, none) ({ l with conns := some [] }, w)
    ∧ Value.elem x ≠ x
    ∧ (listPool.Get l w).andThen (fun a s => listPool.Put s.1 s.2 a.1)
        = Res.ret none ({ l with conns := some (rest ++ [Value.elem r]) }, w) := by
  have hget := Get_cons l w r rest hconns hmu
  refine ⟨hget, elem_ne_self r, ?_, elem_ne_self x, ?_⟩
  · rw [Put_ret { l with conns := some [] } w [] x rfl hmu hx]
    simp only [Res.andThen, List.nil_append]
    rw [Get_cons { l with conns := some [x] } w x [] rfl hmu]
  · rw [hget]
    simp only [Res.andThen]
    rw [Put_ret { l with conns := some rest } w rest (Value.elem r) rfl hmu (by simp)]

/-- Witness for `Get_hands_out_element`: the pool `[obj 1, obj 2]` and `x = obj 7`. -/
theorem Get_hands_out_element_witness :
    (poolOf [Value.obj 1, Value.obj 2]).conns = some [Value.obj 1, Value.obj 2]
    ∧ (poolOf [Value.obj 1, Value.obj 2]).mu = false
    ∧ Value.obj 7 ≠ Value.nil
    ∧ (listPool.Get (poolOf [Value.obj 1, Value.obj 2]) world0).andThen
          (fun a s => listPool.Put s.1 s.2 a.1)
        = Res.ret none (poolOf [Value.obj 2, Value.elem (Value.obj 1)], world0) :=
  ⟨rfl, rfl, by decide,
    (Get_hands_out_element (poolOf [Value.obj 1, Value.obj 2]) world0 (Value.obj 1)
      (Value.obj 7) [Value.obj 2] rfl rfl (by decide)).2.2.2.2⟩

/-! ## The released state is terminal -/

/-- No call that returns or panics takes a released pool out of the released
state. -/
theorem stepAny_keeps_released (fuel : Nat) (s s2 : Sys) (c : AnyCall)
    (h : isReleased s.pool = true) (hs : stepAny fuel s c = some s2) :
    isReleased s2.pool = true := by
  obtain ⟨⟨mu, conns, factory, close, timeout⟩, w, out⟩ := s
  simp only [isReleased, Bool.and_eq_true, Option.isNone_iff_eq_none] at h
  obtain ⟨⟨hc, hf⟩, hcl⟩ := h
  subst hc hf hcl
  cases c with
  | len =>
    simp [stepAny, listPool.Len, list_Len] at hs
    subst hs
    simp [isReleased]
  | call c =>
    cases c with
    | get =>
      simp [stepAny, stepCall, listPool.Get, list_Len] at hs
      subst hs
      simp [isReleased]
    | put r =>
      by_cases hr : r = Value.nil
      · subst hr
        simp [stepAny, stepCall, listPool.Put] at hs
        subst hs
        simp [isReleased]
      · cases mu
        · simp [stepAny, stepCall, listPool.Put, hr, list_PushBack] at hs
          subst hs
          simp [isReleased]
        · simp [stepAny, stepCall, listPool.Put, hr] at hs
    | close r =>
      by_cases hr : r = Value.nil
      · subst hr
        simp [stepAny, stepCall, Close_nil_ret] at hs
        subst hs
        simp [isReleased]
      · simp [stepAny, stepCall, Close_nonnil_outOfFuel fuel _ _ r hr] at hs
    | release =>
      cases mu
      · simp [stepAny, stepCall, listPool.Release] at hs
        subst hs
        simp [isReleased]
      · simp [stepAny, stepCall, listPool.Release] at hs

/-- C15: from a released pool (no list, no callbacks), whatever sequence of
`Get`, `Put`, `Close`, `Release` and `Len` calls is made, the pool reached is
still released: the list is still nil and both callbacks are still nil. -/
theorem released_is_terminal (fuel : Nat) (s : Sys) (calls : List AnyCall)
    (h : isReleased s.pool = true) :
    isReleased (runAny fuel s calls).pool = true
    ∧ (runAny fuel s calls).pool.conns = none := by
  have key : isReleased (runAny fuel s calls).pool = true := by
    induction calls generalizing s with
    | nil => simpa [runAny] using h
    | cons c cs ih =>
      cases hstep : stepAny fuel s c with
      | none => simpa [runAny, hstep] using h
      | some s2 =>
        simp only [runAny, hstep]
        exact ih s2 (stepAny_keeps_released fuel s s2 c h hstep)
  refine ⟨key, ?_⟩
  simp only [isReleased, Bool.and_eq_true, Option.isNone_iff_eq_none] at key
  exact key.1.1

/-- Witness for `released_is_terminal`: the pool `[obj 1]` is released, then
`Len`, `Get`, `Put nil`, `Close nil`, `Release`, `Put (obj 3)` are called. -/
theorem released_is_terminal_witness :
    isReleased
        (runAny 0 { pool := poolOf [Value.obj 1], world := world0, outstanding := 0 }
          [AnyCall.call Call.release]).pool = true
    ∧ isReleased
        (runAny 0
          (runAny 0 { pool := poolOf [Value.obj 1], world := world0, outstanding := 0 }
            [AnyCall.call Call.release])
          [AnyCall.len, AnyCall.call Call.get, AnyCall.call (Call.put Value.nil),
           AnyCall.call (Call.close Value.nil), AnyCall.call Call.release,
           AnyCall.call (Call.put (Value.obj 3))]).pool = true :=
  ⟨by decide,
    (released_is_terminal 0
      (runAny 0 { pool := poolOf [Value.obj 1], world := world0, outstanding := 0 }
        [AnyCall.call Call.release])
      [AnyCall.len, AnyCall.call Call.get, AnyCall.call (Call.put Value.nil),
       AnyCall.call (Call.close Value.nil), AnyCall.call Call.release,
       AnyCall.call (Call.put (Value.obj 3))]
      (by decide)).1⟩

/-! ## Construction: the rollback -/

/-- C14 (evaluation at the failing input): `InitCount = 2`, `MaxCount = 5` are
valid bounds, both callbacks are non-nil, and the factory succeeds once (making
`obj 0`) and then fails.  `newListPool` returns no pool and the error "invalid
config param" with the world unchanged: it does not fail with "init error", the
factory is never invoked and no rollback takes place. -/
theorem newListPool_no_init_error_2_5 :
    ((0 : Int) ≤ 2 ∧ (2 : Int) ≤ 5)
    ∧ failAfter 1 0 = (Value.obj 0, none)
    ∧ (failAfter 1 1).2 ≠ none
    ∧ newListPool { InitCount := 2, MaxCount := 5, Factory := some (failAfter 1),
                    Close := some okClose, Timeout := 0 } world0
        = Res.ret (none, some "invalid config param") world0
    ∧ ¬ (∃ w, newListPool { InitCount := 2, MaxCount := 5, Factory := some (failAfter 1),
                            Close := some okClose, Timeout := 0 } world0
              = Res.ret (none, some "init error") w) := by
  have h : newListPool { InitCount := 2, MaxCount := 5, Factory := some (failAfter 1),
                         Close := some okClose, Timeout := 0 } world0
      = Res.ret (none, some "invalid config param") world0 := by
    simp [newListPool]
  refine ⟨by decide, rfl, by decide, h, ?_⟩
  rintro ⟨w, hw⟩
  rw [h] at hw
  injection hw with h1 _
  injection h1 with _ h2
  exact absurd h2 (by decide)

/-- The loop behind the guards of `newListPool`, run for `n` rounds on an active
pool at rest whose factory succeeds on its next `k < n` calls and fails on the
one after: it returns no pool and the error "init error", with the factory
invoked `k + 1` times and the log of close-callback invocations as it was. -/
theorem newListPool_loop_rollback (k : Nat) (n : Nat) (l : listPool) (w : World)
    (f : FactoryFn) (xs : List Value)
    (hf : l.factory = some f) (hmu : l.mu = false) (hconns : l.conns = some xs)
    (hk : k < n)
    (hok : ∀ i, i < k → (f (w.factoryCalls + i)).2 = none)
    (hfail : (f (w.factoryCalls + k)).2 ≠ none) :
    newListPool_loop n l w
      = Res.ret (none, some "init error")
          { factoryCalls := w.factoryCalls + k + 1, closeCalls := w.closeCalls } := by
  induction k generalizing n l w xs with
  | zero =>
    obtain ⟨m, rfl⟩ : ∃ m, n = m + 1 := ⟨n - 1, by omega⟩
    have hfail2 : ¬ (f w.factoryCalls).2 = none := by simpa using hfail
    simp [newListPool_loop, hf, hfail2, listPool.Release, hmu]
  | succ k ih =>
    obtain ⟨m, rfl⟩ : ∃ m, n = m + 1 := ⟨n - 1, by omega⟩
    have h0 : (f w.factoryCalls).2 = none := by simpa using hok 0 (by omega)
    have hrec := ih m { l with conns := some (xs ++ [(f w.factoryCalls).1]) }
      { w with factoryCalls := w.factoryCalls + 1 } (xs ++ [(f w.factoryCalls).1])
      hf hmu rfl (by omega)
      (by
        intro i hi
        have := hok (i + 1) (by omega)
        simpa [Nat.add_assoc, Nat.add_comm 1 i] using this)
      (by
        have := hfail
        simpa [Nat.add_assoc, Nat.add_comm 1 k] using this)
    obtain ⟨mu, conns, factory, close, timeout⟩ := l
    simp only at hf hmu hconns
    subst hf hmu hconns
    simp only [newListPool_loop, h0, list_PushBack]
    simp only [ne_eq, not_true_eq_false, if_false]
    rw [hrec]
    simp [Nat.add_assoc, Nat.add_comm 1 k]

/-- The loop at two rounds with a factory that succeeds once and then fails:
"init error", two factory calls, and `obj 0`, which the first call made, is not
in the log of close-callback invocations. -/
theorem newListPool_loop_example :
    newListPool_loop 2 (freshPool (failAfter 1) okClose) world0
      = Res.ret (none, some "init error") { factoryCalls := 2, closeCalls := [] } :=
  newListPool_loop_rollback 1 2 (freshPool (failAfter 1) okClose) world0 (failAfter 1) []
    rfl rfl rfl (by decide) (by decide) (by decide)

/-! ## Two Get calls at once -/

/-- Cutting `Get` at its `Lock` loses nothing: the two halves run back to back
are `Get`. -/
theorem Get_uncut_eq (l : listPool) (w : World) :
    listPool.Get_uncut l w = listPool.Get l w := by
  obtain ⟨mu, conns, factory, close, timeout⟩ := l
  rcases conns with _ | xs
  · simp [listPool.Get_uncut, listPool.Get_check, listPool.Get, list_Len]
  · rcases xs with _ | ⟨x, rest⟩
    · simp [listPool.Get_uncut, listPool.Get_check, listPool.Get, list_Len]
    · simp [listPool.Get_uncut, listPool.Get_check, listPool.Get, listPool.Get_locked, list_Len]

/-- C17 (evaluation at the failing schedule): two `Get` calls A and B on the
pool `[obj 1]`, in the order check A, check B, body A, body B.  Both checks pass,
because neither changes the pool and the list has one entry.  A then takes the
element holding `obj 1` and leaves the list empty.  B, past its check, finds no
front element and panics on it with the mutex held: its emptiness check and its
removal were not one step.  Run one after the other, the second `Get` would
have returned "empty list". -/
theorem two_Gets_check_then_body :
    listPool.Get_check (poolOf [Value.obj 1]) world0 = none
    ∧ listPool.Get_locked (poolOf [Value.obj 1]).conns (poolOf [Value.obj 1]) world0
        = Res.ret (Value.elem (Value.obj 1), none) (poolOf [], world0)
    ∧ listPool.Get_locked (poolOf []).conns (poolOf []) world0
        = Res.fault ({ poolOf [] with mu := true }, world0)
    ∧ listPool.Get (poolOf [Value.obj 1]) world0
        = Res.ret (Value.elem (Value.obj 1), none) (poolOf [], world0)
    ∧ listPool.Get (poolOf []) world0
        = Res.ret (Value.nil, some "empty list") (poolOf [], world0) :=
  ⟨rfl, rfl, rfl, rfl, rfl⟩

end GoPool
